import Mathlib

/-!
Verification development for the `development_script.py` maintenance script of
the ntc-templates template library.  The Python source is shallowly embedded:
strings become `List Char`, in-place mutation becomes explicit state passing,
and a raised exception becomes an error value (an `Except` result, or a `Bool`
flag paired with the partially mutated state where the original code mutates
before raising).
-/

set_option autoImplicit false

namespace NtcDev

/-- Python strings are modelled as lists of characters. -/
abbrev Str := List Char

/-- Whitespace as classified by Python's `str.strip` / `str.isspace` and by the
`\s` class of the `re` module on `str` patterns (ASCII whitespace, the
information separators, and the Unicode space code points). -/
def pyIsSpace (c : Char) : Bool :=
  c = ' ' || c = '\t' || c = '\n' || c = '\x0b' || c = '\x0c' || c = '\r' ||
  ('\x1c' ≤ c && c ≤ '\x1f') || c = '\x85' || c = '\xa0' ||
  c = '\u1680' || ('\u2000' ≤ c && c ≤ '\u200a') ||
  c = '\u2028' || c = '\u2029' || c = '\u202f' || c = '\u205f' || c = '\u3000'

/-- Characters other than the newline; the `.` of a Python regex without
`re.DOTALL` matches exactly these. -/
def notNL (c : Char) : Bool := ! (c == '\n')

/-- Python `str.strip()`: remove leading and trailing whitespace. -/
def pyStrip (s : Str) : Str :=
  ((s.dropWhile pyIsSpace).reverse.dropWhile pyIsSpace).reverse

/-- Python `str.lstrip()`: remove leading whitespace. -/
def pyLStrip (s : Str) : Str := s.dropWhile pyIsSpace

/-- Does a string start with the comment marker? -/
def headIsHash : Str → Bool
  | '#' :: _ => true
  | _ => false

/--
`re.findall(RE_MULTILINE_REMARK, remark)` for the source's pattern
`(.*\n\s*#)(.*)`, specialised to its left-to-right non-overlapping scan:

a match begins with the remainder of the current line (`.*`, newline-free),
then a newline, then the greedy `\s*` which succeeds exactly when the first
non-whitespace character after that newline is `#` (consuming the whole
whitespace run, which may itself span newlines); group 2 is the rest of the
line after the `#`.  When the check after a newline fails, the scan resumes
past that newline; when a match is produced, the scan resumes at the newline
that terminated group 2.  The `Nat` argument is structural fuel; one unit is
spent per newline consumed, so `s.length` units always suffice.
-/
def findallGo : Nat → Str → List (Str × Str)
  | 0, _ => []
  | Nat.succ fuel, s =>
    match s.dropWhile notNL with
    | [] => []
    | _ :: rest =>
      let rest' := rest.dropWhile pyIsSpace
      if headIsHash rest' then
        (s.takeWhile notNL ++ '\n' :: (rest.takeWhile pyIsSpace ++ ['#']),
          rest'.tail.takeWhile notNL)
          :: findallGo fuel (rest'.tail.dropWhile notNL)
      else findallGo fuel rest

/-- `re.findall(RE_MULTILINE_REMARK, remark)` (see `findallGo`). -/
def findallRM (s : Str) : List (Str × Str) := findallGo s.length s

/--
`ensure_spacing_for_multiline_comment` from `development_script.py`:

```python
remarks = re.findall(RE_MULTILINE_REMARK, remark)
if not remarks:
    remarks = (("", remark),)
remark_formatted = "".join([entry[0] + " " + entry[1].strip() for entry in remarks])
return remark_formatted
```
-/
def ensure_spacing_for_multiline_comment (remark : Str) : Str :=
  let remarks := findallRM remark
  let remarks := if remarks.isEmpty then [(([] : Str), remark)] else remarks
  (remarks.map (fun entry => entry.1 ++ ' ' :: pyStrip entry.2)).flatten

/-- `ensure_spacing_for_multiline_comment` lifted to Lean `String`s. -/
def ensureSpacingStr (remark : String) : String :=
  (ensure_spacing_for_multiline_comment remark.data).asString

/-- Splitting a string at its newlines (Python `str.split("\n")`); used to
talk about the "segments" of a multi-line comment. -/
def splitNL : Str → List Str
  | [] => [[]]
  | '\n' :: rest => [] :: splitNL rest
  | c :: rest =>
    match splitNL rest with
    | [] => [[c]]
    | s :: ss => (c :: s) :: ss


/-! ### Segmented remarks -/

/-- One marker continuation of a multi-line remark: a newline, a whitespace
run `w`, the marker, and the remark text `t` of that line. -/
def contSeg (w t : Str) : Str := '\n' :: (w ++ '#' :: t)

/-- Concatenation of a list of marker continuations. -/
def segJoin (segs : List (Str × Str)) : Str :=
  (segs.map fun p => contSeg p.1 p.2).flatten

/-- A remark made of a first (marker-free) line `t0` followed by marker
continuations. -/
def segmented (t0 : Str) (segs : List (Str × Str)) : Str := t0 ++ segJoin segs

/-- Well-formedness of the continuations: each pre-marker run is whitespace
only and each remark text is newline-free. -/
abbrev GoodSegs (segs : List (Str × Str)) : Prop :=
  ∀ p ∈ segs, (∀ c ∈ p.1, pyIsSpace c = true) ∧ '\n' ∉ p.2

/-- The list of matches the scan produces on a segmented remark. -/
def segPieces (t0 : Str) : List (Str × Str) → List (Str × Str)
  | [] => []
  | p :: rest => (t0 ++ '\n' :: (p.1 ++ ['#']), p.2) :: segPieces [] rest

/-- Modelled from the spec: a comment string "in normalized form" — a
marker-free first line followed by continuation segments, each consisting of
the marker, exactly one space, and trimmed remark text, segments joined by
newlines, no trailing blank segment. -/
def normalizedRemark (t0 : Str) (us : List Str) : Str :=
  t0 ++ (us.map fun u => '\n' :: '#' :: ' ' :: u).flatten

/-- Characters other than the comment marker; `str.partition("#")` splits at
the first character that is not one of these. -/
def notHash (c : Char) : Bool := ! (c == '#')

/-- The body of `ensure_space_after_octothorpe` on a present comment token:
`space, octothorpe, remark = comment.value.partition("#")` followed by
`comment.value = f"{space}# {remark_formatted.lstrip()}\n"`. -/
def normalizeTokenValue (v : Str) : Str :=
  let space := v.takeWhile notHash
  let remark := (v.dropWhile notHash).tail
  space ++ '#' :: ' ' ::
    (pyLStrip (ensure_spacing_for_multiline_comment remark) ++ ['\n'])

/-- `ensure_space_after_octothorpe` from `development_script.py`: an absent
comment (`None`) is left untouched, otherwise the token's value is rewritten
in place. -/
def ensure_space_after_octothorpe : Option Str → Option Str
  | Option.none => Option.none
  | Option.some v => Option.some (normalizeTokenValue v)

/-! ### The YAML document model -/

/-- One comment slot of a `ruamel` comment registry entry: `None`, a
`CommentToken` (modelled by its string value), or a list of tokens (comments
"nested inside an additional list", whose entries may again be `None`). -/
inductive CommentSlot where
  | none : CommentSlot
  | token (value : Str) : CommentSlot
  | group (values : List (Option Str)) : CommentSlot

/-- A comment registry (`yaml_object.ca.items`): each key of the node with
its list of comment slots. -/
abbrev Registry := List (Str × List CommentSlot)

/-- The slot-level dispatch inside `ensure_space_comments`: a slot that is
not a list goes through `ensure_space_after_octothorpe` directly, a list slot
element-wise. -/
def normSlot : CommentSlot → CommentSlot
  | CommentSlot.none => CommentSlot.none
  | CommentSlot.token v => CommentSlot.token (normalizeTokenValue v)
  | CommentSlot.group vs => CommentSlot.group (vs.map ensure_space_after_octothorpe)

/-- `ensure_space_comments`, applied to `ca.items.values()`: every comment of
every slot list is normalized in place. -/
def ensure_space_comments (comments : List (List CommentSlot)) : List (List CommentSlot) :=
  comments.map fun slots => slots.map normSlot

/-- The registry after `ensure_space_comments` ran over its values: keys are
untouched, the tokens are updated in place. -/
def normRegistry (ca : Registry) : Registry :=
  ca.map fun kv => (kv.1, kv.2.map normSlot)

mutual
/-- A Python value as handled by the script: scalars (strings, numbers, and
`DoubleQuotedScalarString` wrappers), mappings and sequences — the latter two
either `ruamel` commented variants carrying a `.ca` comment registry, or
plain `dict`/`list` objects on which accessing `.ca` raises
`AttributeError`. -/
inductive PyVal where
  | scalarS (s : Str) : PyVal
  | scalarN (n : Int) : PyVal
  | dq (s : Str) : PyVal
  | commentedMap (entries : PyFields) (ca : Registry) : PyVal
  | plainMap (entries : PyFields) : PyVal
  | commentedSeq (items : PyItems) (ca : Registry) : PyVal
  | plainSeq (items : PyItems) : PyVal

/-- The ordered key/value entries of a mapping. -/
inductive PyFields where
  | nil : PyFields
  | cons (key : Str) (val : PyVal) (rest : PyFields) : PyFields

/-- The ordered items of a sequence. -/
inductive PyItems where
  | nil : PyItems
  | cons (val : PyVal) (rest : PyItems) : PyItems
end

/-- `isinstance(entry, dict) or isinstance(entry, list)` — the guard of the
recursion in `update_yaml_comments` (`ruamel` commented collections are
subclasses of `dict`/`list`). -/
def isDictOrList : PyVal → Bool
  | PyVal.commentedMap _ _ => true
  | PyVal.plainMap _ => true
  | PyVal.commentedSeq _ _ => true
  | PyVal.plainSeq _ => true
  | _ => false

/-- Does the node carry a `.ca` comment registry? -/
def hasCa : PyVal → Bool
  | PyVal.commentedMap _ _ => true
  | PyVal.commentedSeq _ _ => true
  | _ => false

mutual
/-- `update_yaml_comments`: reads `yaml_object.ca.items.values()` (an
`AttributeError` on a node without `.ca`), runs `ensure_space_comments` over
it, then recurses into every child that is a `dict` or `list`; for a mapping
the children come from `.values()`, for a sequence — whose `.values()` raises
the `AttributeError` caught by the `try` inside the function — from the
object itself.  The `Bool` of the result records an uncaught `AttributeError`
(its exception propagates to the caller): mutations performed before the
raise are kept, children after it are left unvisited. -/
def update_yaml_comments : PyVal → PyVal × Bool
  | PyVal.scalarS s => (PyVal.scalarS s, true)
  | PyVal.scalarN n => (PyVal.scalarN n, true)
  | PyVal.dq s => (PyVal.dq s, true)
  | PyVal.plainMap es => (PyVal.plainMap es, true)
  | PyVal.plainSeq xs => (PyVal.plainSeq xs, true)
  | PyVal.commentedMap es ca =>
    let res := updateFields es
    (PyVal.commentedMap res.1 (normRegistry ca), res.2)
  | PyVal.commentedSeq xs ca =>
    let res := updateItems xs
    (PyVal.commentedSeq res.1 (normRegistry ca), res.2)

/-- The recursion of `update_yaml_comments` over a mapping's values. -/
def updateFields : PyFields → PyFields × Bool
  | PyFields.nil => (PyFields.nil, false)
  | PyFields.cons k v rest =>
    if isDictOrList v then
      let rv := update_yaml_comments v
      if rv.2 then (PyFields.cons k rv.1 rest, true)
      else
        let rr := updateFields rest
        (PyFields.cons k rv.1 rr.1, rr.2)
    else
      let rr := updateFields rest
      (PyFields.cons k v rr.1, rr.2)

/-- The recursion of `update_yaml_comments` over a sequence's items. -/
def updateItems : PyItems → PyItems × Bool
  | PyItems.nil => (PyItems.nil, false)
  | PyItems.cons v rest =>
    if isDictOrList v then
      let rv := update_yaml_comments v
      if rv.2 then (PyItems.cons rv.1 rest, true)
      else
        let rr := updateItems rest
        (PyItems.cons rv.1 rr.1, rr.2)
    else
      let rr := updateItems rest
      (PyItems.cons v rr.1, rr.2)
end

mutual
/-- Every mapping/sequence node of the document is a commented variant — the
shape `ruamel.yaml` loading always produces. -/
def allCommented : PyVal → Bool
  | PyVal.commentedMap es _ => allCommentedFields es
  | PyVal.commentedSeq xs _ => allCommentedItems xs
  | PyVal.plainMap _ => false
  | PyVal.plainSeq _ => false
  | _ => true

def allCommentedFields : PyFields → Bool
  | PyFields.nil => true
  | PyFields.cons _ v rest => allCommented v && allCommentedFields rest

def allCommentedItems : PyItems → Bool
  | PyItems.nil => true
  | PyItems.cons v rest => allCommented v && allCommentedItems rest
end

mutual
/-- Order-independent specification of the comment walk: normalize every
registry of every node, at every nesting depth. -/
def normAllComments : PyVal → PyVal
  | PyVal.commentedMap es ca =>
    PyVal.commentedMap (normAllCommentsFields es) (normRegistry ca)
  | PyVal.commentedSeq xs ca =>
    PyVal.commentedSeq (normAllCommentsItems xs) (normRegistry ca)
  | v => v

def normAllCommentsFields : PyFields → PyFields
  | PyFields.nil => PyFields.nil
  | PyFields.cons k v rest =>
    PyFields.cons k (normAllComments v) (normAllCommentsFields rest)

def normAllCommentsItems : PyItems → PyItems
  | PyItems.nil => PyItems.nil
  | PyItems.cons v rest =>
    PyItems.cons (normAllComments v) (normAllCommentsItems rest)
end

/-- The document of the spec example, with its two comments: the token
`"#comment 2\n#comment 3\n"` at key `b` of the root registry and the
group-nested token `"#comment 7\n"` at key `d`. -/
def exampleDoc : PyVal :=
  PyVal.commentedMap
    (PyFields.cons "a".data (PyVal.scalarN 5)
      (PyFields.cons "b".data (PyVal.scalarN 6)
        (PyFields.cons "d".data
          (PyVal.commentedMap
            (PyFields.cons "e".data (PyVal.scalarS "a".data) PyFields.nil) [])
          PyFields.nil)))
    [("b".data, [CommentSlot.none, CommentSlot.none,
        CommentSlot.token "#comment 2\n#comment 3\n".data, CommentSlot.none]),
     ("d".data, [CommentSlot.none, CommentSlot.none, CommentSlot.none,
        CommentSlot.group [Option.some "#comment 7\n".data]])]

/-- `exampleDoc` with both comments normalized. -/
def exampleDocNormalized : PyVal :=
  PyVal.commentedMap
    (PyFields.cons "a".data (PyVal.scalarN 5)
      (PyFields.cons "b".data (PyVal.scalarN 6)
        (PyFields.cons "d".data
          (PyVal.commentedMap
            (PyFields.cons "e".data (PyVal.scalarS "a".data) PyFields.nil) [])
          PyFields.nil)))
    [("b".data, [CommentSlot.none, CommentSlot.none,
        CommentSlot.token "# comment 2\n# comment 3\n".data, CommentSlot.none]),
     ("d".data, [CommentSlot.none, CommentSlot.none, CommentSlot.none,
        CommentSlot.group [Option.some "# comment 7\n".data]])]

/-! ### The canonical writer -/

/-- The exception classes raised along the writer's code paths. -/
inductive PyErr where
  | keyError : PyErr
  | typeError : PyErr
  | attributeError : PyErr
  | nameError : PyErr

def lookupField : PyFields → Str → Option PyVal
  | PyFields.nil, _ => Option.none
  | PyFields.cons k v rest, key =>
    if k = key then Option.some v else lookupField rest key

/-- `obj[key]` for a string key: mappings look the key up (`KeyError` when
absent); subscribing any other value by a string raises `TypeError`. -/
def subscriptStr : PyVal → Str → Except PyErr PyVal
  | PyVal.commentedMap es _, key =>
    match lookupField es key with
    | Option.some v => Except.ok v
    | Option.none => Except.error PyErr.keyError
  | PyVal.plainMap es, key =>
    match lookupField es key with
    | Option.some v => Except.ok v
    | Option.none => Except.error PyErr.keyError
  | _, _ => Except.error PyErr.typeError

def setField : PyFields → Str → PyVal → PyFields
  | PyFields.nil, _, _ => PyFields.nil
  | PyFields.cons k v rest, key, w =>
    if k = key then PyFields.cons k w rest
    else PyFields.cons k v (setField rest key w)

/-- The sample list mutated in place stays reachable under its key. -/
def setKey : PyVal → Str → PyVal → PyVal
  | PyVal.commentedMap es ca, key, w => PyVal.commentedMap (setField es key w) ca
  | PyVal.plainMap es, key, w => PyVal.plainMap (setField es key w)
  | v, _, _ => v

/-- `DQ(val)` on one element of a list-valued field.  The script only meets
string elements there (`TextFSM` capture lists), for which `DQ` keeps the
text; a number is rendered by `str()`.  `DQ` of a container would stringify
its representation — outside the modelled domain, reported as a `TypeError`
boundary and excluded by every claim's hypotheses. -/
def dqOf : PyVal → Except PyErr PyVal
  | PyVal.scalarS s => Except.ok (PyVal.dq s)
  | PyVal.dq s => Except.ok (PyVal.dq s)
  | PyVal.scalarN n => Except.ok (PyVal.dq (toString n).data)
  | _ => Except.error PyErr.typeError

def dqItems : PyItems → Except PyErr PyItems
  | PyItems.nil => Except.ok PyItems.nil
  | PyItems.cons v rest =>
    match dqOf v with
    | Except.error e => Except.error e
    | Except.ok w =>
      match dqItems rest with
      | Except.error e => Except.error e
      | Except.ok ws => Except.ok (PyItems.cons w ws)

/-- Iterating a mapping yields its keys (strings), each wrapped by `DQ`. -/
def keysItems : PyFields → PyItems
  | PyFields.nil => PyItems.nil
  | PyFields.cons k _ rest => PyItems.cons (PyVal.dq k) (keysItems rest)

/-- One field value of a record, as quoted by `ensure_yaml_standards`:
`if isinstance(value, (str, Number)): entry[key] = DQ(value)` and otherwise
`entry[key] = [DQ(val) for val in value]` — a fresh plain list; for a
mapping value the iteration yields its keys. -/
def quoteValue : PyVal → Except PyErr PyVal
  | PyVal.scalarS s => Except.ok (PyVal.dq s)
  | PyVal.dq s => Except.ok (PyVal.dq s)
  | PyVal.scalarN n => Except.ok (PyVal.dq (toString n).data)
  | PyVal.commentedSeq xs _ =>
    match dqItems xs with
    | Except.error e => Except.error e
    | Except.ok ys => Except.ok (PyVal.plainSeq ys)
  | PyVal.plainSeq xs =>
    match dqItems xs with
    | Except.error e => Except.error e
    | Except.ok ys => Except.ok (PyVal.plainSeq ys)
  | PyVal.commentedMap es _ => Except.ok (PyVal.plainSeq (keysItems es))
  | PyVal.plainMap es => Except.ok (PyVal.plainSeq (keysItems es))

def quoteFields : PyFields → Except PyErr PyFields
  | PyFields.nil => Except.ok PyFields.nil
  | PyFields.cons k v rest =>
    match quoteValue v with
    | Except.error e => Except.error e
    | Except.ok w =>
      match quoteFields rest with
      | Except.error e => Except.error e
      | Except.ok ws => Except.ok (PyFields.cons k w ws)

/-- One record of the sample: `entry.items()` requires a mapping; on
anything else it raises `AttributeError`. -/
def quoteRecord : PyVal → Except PyErr PyVal
  | PyVal.commentedMap es ca =>
    match quoteFields es with
    | Except.error e => Except.error e
    | Except.ok es2 => Except.ok (PyVal.commentedMap es2 ca)
  | PyVal.plainMap es =>
    match quoteFields es with
    | Except.error e => Except.error e
    | Except.ok es2 => Except.ok (PyVal.plainMap es2)
  | _ => Except.error PyErr.attributeError

def quoteRecords : PyItems → Except PyErr PyItems
  | PyItems.nil => Except.ok PyItems.nil
  | PyItems.cons v rest =>
    match quoteRecord v with
    | Except.error e => Except.error e
    | Except.ok w =>
      match quoteRecords rest with
      | Except.error e => Except.error e
      | Except.ok ws => Except.ok (PyItems.cons w ws)

/-- `for entry in parsed_object["parsed_sample"]`: sequences iterate their
records; iterating a mapping yields string keys whose `.items()` raises
`AttributeError` (unless the mapping is empty and the loop never runs);
iterating a string likewise; a number is not iterable (`TypeError`). -/
def quoteSample : PyVal → Except PyErr PyVal
  | PyVal.commentedSeq xs ca =>
    match quoteRecords xs with
    | Except.error e => Except.error e
    | Except.ok ys => Except.ok (PyVal.commentedSeq ys ca)
  | PyVal.plainSeq xs =>
    match quoteRecords xs with
    | Except.error e => Except.error e
    | Except.ok ys => Except.ok (PyVal.plainSeq ys)
  | PyVal.commentedMap PyFields.nil ca => Except.ok (PyVal.commentedMap PyFields.nil ca)
  | PyVal.commentedMap _ _ => Except.error PyErr.attributeError
  | PyVal.plainMap PyFields.nil => Except.ok (PyVal.plainMap PyFields.nil)
  | PyVal.plainMap _ => Except.error PyErr.attributeError
  | PyVal.scalarS [] => Except.ok (PyVal.scalarS [])
  | PyVal.scalarS _ => Except.error PyErr.attributeError
  | PyVal.dq [] => Except.ok (PyVal.dq [])
  | PyVal.dq _ => Except.error PyErr.attributeError
  | PyVal.scalarN _ => Except.error PyErr.typeError

/-- `ensure_yaml_standards` up to the final `YAML_OBJECT.dump`: quote every
field of every record under `"parsed_sample"`, then run the comment walk
inside `try: ... except AttributeError: pass`.  An `Except.ok` carries the
document state handed to the dump; an error result propagated to the caller
before anything was written. -/
def ensure_yaml_standards (parsed_object : PyVal) : Except PyErr PyVal :=
  match subscriptStr parsed_object "parsed_sample".data with
  | Except.error e => Except.error e
  | Except.ok sample =>
    match quoteSample sample with
    | Except.error e => Except.error e
    | Except.ok sample2 =>
      Except.ok
        (update_yaml_comments (setKey parsed_object "parsed_sample".data sample2)).1

/-! ### Spec-side description of the quoting pass -/

def scalarish : PyVal → Bool
  | PyVal.scalarS _ => true
  | PyVal.scalarN _ => true
  | PyVal.dq _ => true
  | _ => false

def itemsAllScalar : PyItems → Bool
  | PyItems.nil => true
  | PyItems.cons v rest => scalarish v && itemsAllScalar rest

/-- A field value of the shapes the contract covers: a string or a number,
or a list of such. -/
def wellShapedValue : PyVal → Bool
  | PyVal.commentedSeq xs _ => itemsAllScalar xs
  | PyVal.plainSeq xs => itemsAllScalar xs
  | v => scalarish v

def fieldsWellShaped : PyFields → Bool
  | PyFields.nil => true
  | PyFields.cons _ v rest => wellShapedValue v && fieldsWellShaped rest

def recordWellShaped : PyVal → Bool
  | PyVal.commentedMap es _ => fieldsWellShaped es
  | PyVal.plainMap es => fieldsWellShaped es
  | _ => false

def recordsWellShaped : PyItems → Bool
  | PyItems.nil => true
  | PyItems.cons v rest => recordWellShaped v && recordsWellShaped rest

/-- Modelled from the spec: wrapping one scalar for forced-quoted
serialization. -/
def dqSpec : PyVal → PyVal
  | PyVal.scalarS s => PyVal.dq s
  | PyVal.dq s => PyVal.dq s
  | PyVal.scalarN n => PyVal.dq (toString n).data
  | v => v

def mapItems (f : PyVal → PyVal) : PyItems → PyItems
  | PyItems.nil => PyItems.nil
  | PyItems.cons v rest => PyItems.cons (f v) (mapItems f rest)

def mapFieldValues (f : PyVal → PyVal) : PyFields → PyFields
  | PyFields.nil => PyFields.nil
  | PyFields.cons k v rest => PyFields.cons k (f v) (mapFieldValues f rest)

/-- Modelled from the spec: the Scalar Quoting Pass contract on one field
value — a string or number is wrapped, a list is wrapped element-wise. -/
def quoteValueSpec : PyVal → PyVal
  | PyVal.commentedSeq xs _ => PyVal.plainSeq (mapItems dqSpec xs)
  | PyVal.plainSeq xs => PyVal.plainSeq (mapItems dqSpec xs)
  | v => dqSpec v

/-- Modelled from the spec: the quoting pass on one record — every field
value rewritten by `quoteValueSpec`, field names and their order kept. -/
def quoteRecordSpec : PyVal → PyVal
  | PyVal.commentedMap es ca => PyVal.commentedMap (mapFieldValues quoteValueSpec es) ca
  | PyVal.plainMap es => PyVal.plainMap (mapFieldValues quoteValueSpec es)
  | v => v

/-- The records of the spec example `{"a": "x", "b": ["1", "2"]}`. -/
def exampleRecords : PyItems :=
  PyItems.cons
    (PyVal.plainMap
      (PyFields.cons "a".data (PyVal.scalarS "x".data)
        (PyFields.cons "b".data
          (PyVal.plainSeq
            (PyItems.cons (PyVal.scalarS "1".data)
              (PyItems.cons (PyVal.scalarS "2".data) PyItems.nil)))
          PyFields.nil)))
    PyItems.nil

/-! ### File name construction -/

/-- `str.replace(" ", "_")`. -/
def replaceSpaceUnderscore (s : Str) : Str :=
  s.map fun c => if c = ' ' then '_' else c

/-- `os.path.join` on the relative POSIX components used by the script. -/
def pathJoin (parts : List Str) : Str := List.intercalate ['/'] parts

/-- `get_test_files` from `development_script.py`.  Its parameter is the
misspelled `vender_os`; the body reads the name `vendor_os`, which resolves
to the module global (a `NameError` when the global was never assigned):

```python
base_name = vendor_os + "_" + command.replace(" ", "_")
raw_base_name = base_name + str(index) if index > 1 else base_name
raw_file = os.path.join("tests", vendor_os, command.replace(" ", "_"), raw_base_name + ".raw")
template_file = os.path.join("ntc_templates", "templates", base_name + ".textfsm")
```
-/
def get_test_files (vendor_os_global : Option Str) (vender_os command : Str)
    (index : Int) : Except PyErr (Str × Str) :=
  match vendor_os_global with
  | Option.none => Except.error PyErr.nameError
  | Option.some vendor_os =>
    let base_name := vendor_os ++ '_' :: replaceSpaceUnderscore command
    let raw_base_name :=
      if index > 1 then base_name ++ (toString index).data else base_name
    let raw_file := pathJoin ["tests".data, vendor_os,
      replaceSpaceUnderscore command, raw_base_name ++ ".raw".data]
    let template_file := pathJoin ["ntc_templates".data, "templates".data,
      base_name ++ ".textfsm".data]
    Except.ok (raw_file, template_file)

/-- Modelled from the spec: the naming convention
`{vendor}_{command-with-spaces-as-underscores}[{index if >1}]`. -/
def specBaseName (vendor command : Str) (index : Int) : Str :=
  vendor ++ '_' :: replaceSpaceUnderscore command
    ++ (if index > 1 then (toString index).data else [])

/-! ### Generic facts about `takeWhile` and `dropWhile` -/

theorem takeWhile_append_all {p : Char → Bool} {a : Str} (b : Str)
    (h : ∀ c ∈ a, p c = true) :
    (a ++ b).takeWhile p = a ++ b.takeWhile p := by
  induction a with
  | nil => rfl
  | cons c a ih =>
    have hc : p c = true := h c (by simp)
    simp only [List.cons_append, List.takeWhile_cons, hc, if_true]
    rw [ih (fun x hx => h x (by simp [hx]))]

theorem dropWhile_append_all {p : Char → Bool} {a : Str} (b : Str)
    (h : ∀ c ∈ a, p c = true) :
    (a ++ b).dropWhile p = b.dropWhile p := by
  induction a with
  | nil => rfl
  | cons c a ih =>
    have hc : p c = true := h c (by simp)
    simp only [List.cons_append, List.dropWhile_cons, hc, if_true]
    exact ih (fun x hx => h x (by simp [hx]))

theorem takeWhile_all {p : Char → Bool} {a : Str}
    (h : ∀ c ∈ a, p c = true) : a.takeWhile p = a := by
  have := takeWhile_append_all (p := p) (a := a) [] h
  simpa using this

theorem dropWhile_all {p : Char → Bool} {a : Str}
    (h : ∀ c ∈ a, p c = true) : a.dropWhile p = [] := by
  have := dropWhile_append_all (p := p) (a := a) [] h
  simpa using this

theorem takeWhile_stop {p : Char → Bool} {x : Char} (b : Str)
    (h : p x = false) : (x :: b).takeWhile p = [] := by
  simp [List.takeWhile_cons, h]

theorem dropWhile_stop {p : Char → Bool} {x : Char} (b : Str)
    (h : p x = false) : (x :: b).dropWhile p = x :: b := by
  simp [List.dropWhile_cons, h]

theorem length_dropWhile_le (p : Char → Bool) (l : Str) :
    (l.dropWhile p).length ≤ l.length :=
  (List.dropWhile_sublist p).length_le

theorem notNL_of_not_mem {a : Str} (h : '\n' ∉ a) :
    ∀ c ∈ a, notNL c = true := by
  intro c hc
  simp only [notNL, Bool.not_eq_true', beq_eq_false_iff_ne, ne_eq]
  rintro rfl
  exact h hc

theorem notNL_newline : notNL '\n' = false := by decide

theorem pyIsSpace_hash : pyIsSpace '#' = false := by decide

/-! ### Unfolding and step lemmas for the regex scan -/

theorem findallGo_succ (n : Nat) (s : Str) :
    findallGo (n + 1) s =
      match s.dropWhile notNL with
      | [] => []
      | _ :: rest =>
        if headIsHash (rest.dropWhile pyIsSpace) then
          (s.takeWhile notNL ++ '\n' :: (rest.takeWhile pyIsSpace ++ ['#']),
            (rest.dropWhile pyIsSpace).tail.takeWhile notNL)
            :: findallGo n ((rest.dropWhile pyIsSpace).tail.dropWhile notNL)
        else findallGo n rest := rfl

theorem findallGo_succ_nil (n : Nat) (s : Str)
    (hd : s.dropWhile notNL = []) : findallGo (n + 1) s = [] := by
  rw [findallGo_succ, hd]

theorem findallGo_succ_cons (n : Nat) (s : Str) (x : Char) (rest : Str)
    (hd : s.dropWhile notNL = x :: rest) :
    findallGo (n + 1) s =
      if headIsHash (rest.dropWhile pyIsSpace) then
        (s.takeWhile notNL ++ '\n' :: (rest.takeWhile pyIsSpace ++ ['#']),
          (rest.dropWhile pyIsSpace).tail.takeWhile notNL)
          :: findallGo n ((rest.dropWhile pyIsSpace).tail.dropWhile notNL)
      else findallGo n rest := by
  rw [findallGo_succ, hd]

theorem length_tail_le (l : Str) : l.tail.length ≤ l.length := by
  cases l with
  | nil => exact Nat.le_refl _
  | cons c l => exact Nat.le_succ _

/-- The fuel of `findallGo` is irrelevant as soon as it covers the length of
the input, so every call can be rewritten to `findallRM`. -/
theorem findallGo_eq : ∀ (fuel : Nat) (s : Str),
    s.length ≤ fuel → findallGo fuel s = findallRM s := by
  intro fuel
  induction fuel using Nat.strong_induction_on with
  | _ fuel ih =>
    intro s h
    cases fuel with
    | zero =>
      have hs : s = [] := List.eq_nil_of_length_eq_zero (Nat.le_zero.mp h)
      subst hs; rfl
    | succ n =>
      cases s with
      | nil => rfl
      | cons c s' =>
        show findallGo (n + 1) (c :: s') = findallGo (s'.length + 1) (c :: s')
        cases hd : (c :: s').dropWhile notNL with
        | nil => rw [findallGo_succ_nil n _ hd, findallGo_succ_nil s'.length _ hd]
        | cons x rest =>
          rw [findallGo_succ_cons n _ x rest hd, findallGo_succ_cons s'.length _ x rest hd]
          have hrest : rest.length ≤ s'.length := by
            have hle := length_dropWhile_le notNL (c :: s')
            rw [hd] at hle
            exact Nat.lt_succ_iff.mp (Nat.lt_of_lt_of_le (Nat.lt_succ_self _) hle)
          have hsn : s'.length ≤ n := by
            simpa using h
          by_cases hh : headIsHash (rest.dropWhile pyIsSpace) = true
          · simp only [hh, if_true]
            have htail : (rest.dropWhile pyIsSpace).tail.length ≤ rest.length :=
              Nat.le_trans (length_tail_le _) (length_dropWhile_le pyIsSpace rest)
            have harg : ((rest.dropWhile pyIsSpace).tail.dropWhile notNL).length ≤ rest.length :=
              Nat.le_trans (length_dropWhile_le notNL _) htail
            rw [ih n (Nat.lt_succ_self n) _ (Nat.le_trans harg (Nat.le_trans hrest hsn)),
              ih s'.length (Nat.lt_succ_of_le hsn) _ (Nat.le_trans harg hrest)]
          · rw [Bool.not_eq_true] at hh
            simp only [hh, Bool.false_eq_true, if_false]
            rw [ih n (Nat.lt_succ_self n) rest (Nat.le_trans hrest hsn),
              ih s'.length (Nat.lt_succ_of_le hsn) rest hrest]

/-- A string without a newline produces no regex match. -/
theorem findallRM_noNL {s : Str} (h : '\n' ∉ s) : findallRM s = [] := by
  cases s with
  | nil => rfl
  | cons c s' =>
    show findallGo (s'.length + 1) (c :: s') = []
    exact findallGo_succ_nil _ _ (dropWhile_all (notNL_of_not_mem h))

/-- Failure step of the scan: when the first non-whitespace character after
the first newline is not `#`, the whole first line and its newline are
skipped. -/
theorem findallRM_skip {a r : Str} (ha : '\n' ∉ a)
    (hr : headIsHash (r.dropWhile pyIsSpace) = false) :
    findallRM (a ++ '\n' :: r) = findallRM r := by
  have hd : (a ++ '\n' :: r).dropWhile notNL = '\n' :: r := by
    rw [dropWhile_append_all (p := notNL) _ (notNL_of_not_mem ha),
      dropWhile_stop _ notNL_newline]
  have hlen : (a ++ '\n' :: r).length = (a.length + r.length) + 1 := by
    simp [List.length_append]; omega
  show findallGo ((a ++ '\n' :: r).length) (a ++ '\n' :: r) = findallRM r
  rw [hlen, findallGo_succ_cons _ _ _ _ hd, hr]
  simp only [Bool.false_eq_true, if_false]
  exact findallGo_eq _ r (Nat.le_add_left _ _)

/-- Success step of the scan: a newline followed by a whitespace run and `#`
yields a match whose first group keeps the current line, the newline, the
whitespace run and the marker, and whose second group is the rest of that
line. -/
theorem findallRM_match {a w t : Str} (ha : '\n' ∉ a)
    (hw : ∀ c ∈ w, pyIsSpace c = true) :
    findallRM (a ++ '\n' :: (w ++ '#' :: t)) =
      (a ++ '\n' :: (w ++ ['#']), t.takeWhile notNL)
        :: findallRM (t.dropWhile notNL) := by
  have hd : (a ++ '\n' :: (w ++ '#' :: t)).dropWhile notNL = '\n' :: (w ++ '#' :: t) := by
    rw [dropWhile_append_all (p := notNL) _ (notNL_of_not_mem ha),
      dropWhile_stop _ notNL_newline]
  have hdw : (w ++ '#' :: t).dropWhile pyIsSpace = '#' :: t := by
    rw [dropWhile_append_all (p := pyIsSpace) _ hw, dropWhile_stop _ pyIsSpace_hash]
  have htw : (w ++ '#' :: t).takeWhile pyIsSpace = w := by
    rw [takeWhile_append_all (p := pyIsSpace) _ hw, takeWhile_stop _ pyIsSpace_hash,
      List.append_nil]
  have hta : (a ++ '\n' :: (w ++ '#' :: t)).takeWhile notNL = a := by
    rw [takeWhile_append_all (p := notNL) _ (notNL_of_not_mem ha),
      takeWhile_stop _ notNL_newline, List.append_nil]
  have hlen : (a ++ '\n' :: (w ++ '#' :: t)).length
      = (a.length + w.length + t.length + 1) + 1 := by
    simp [List.length_append]; omega
  show findallGo _ _ = _
  rw [hlen, findallGo_succ_cons _ _ _ _ hd, hdw, htw, hta]
  simp only [headIsHash, if_true, List.tail_cons]
  rw [findallGo_eq _ (t.dropWhile notNL)
    (Nat.le_trans (length_dropWhile_le notNL t) (by omega))]

theorem segJoin_cons (p : Str × Str) (rest : List (Str × Str)) :
    segJoin (p :: rest) = '\n' :: (p.1 ++ '#' :: (p.2 ++ segJoin rest)) := by
  simp [segJoin, contSeg, List.append_assoc]

theorem segJoin_shape (segs : List (Str × Str)) :
    segJoin segs = [] ∨ ∃ u, segJoin segs = '\n' :: u := by
  cases segs with
  | nil => exact Or.inl rfl
  | cons p rest => exact Or.inr ⟨_, segJoin_cons p rest⟩

theorem takeWhile_notNL_append_segJoin {t : Str} (segs : List (Str × Str))
    (ht : '\n' ∉ t) : (t ++ segJoin segs).takeWhile notNL = t := by
  rcases segJoin_shape segs with h | ⟨u, h⟩
  · rw [h, List.append_nil, takeWhile_all (notNL_of_not_mem ht)]
  · rw [h, takeWhile_append_all (p := notNL) _ (notNL_of_not_mem ht),
      takeWhile_stop _ notNL_newline, List.append_nil]

theorem dropWhile_notNL_append_segJoin {t : Str} (segs : List (Str × Str))
    (ht : '\n' ∉ t) : (t ++ segJoin segs).dropWhile notNL = segJoin segs := by
  rcases segJoin_shape segs with h | ⟨u, h⟩
  · rw [h, List.append_nil, dropWhile_all (notNL_of_not_mem ht)]
  · rw [h, dropWhile_append_all (p := notNL) _ (notNL_of_not_mem ht),
      dropWhile_stop _ notNL_newline]

/-- The scan of a segmented remark produces exactly one match per marker
continuation. -/
theorem findallRM_segmented : ∀ (segs : List (Str × Str)) (t0 : Str),
    '\n' ∉ t0 → GoodSegs segs →
    findallRM (segmented t0 segs) = segPieces t0 segs := by
  intro segs
  induction segs with
  | nil =>
    intro t0 h0 _
    show findallRM (t0 ++ segJoin []) = segPieces t0 []
    rw [show segJoin [] = [] from rfl, List.append_nil]
    exact findallRM_noNL h0
  | cons p rest ih =>
    intro t0 h0 hg
    obtain ⟨hw, ht⟩ := hg p (by simp)
    have hg' : GoodSegs rest := fun q hq => hg q (by simp [hq])
    have hshape : segmented t0 (p :: rest)
        = t0 ++ '\n' :: (p.1 ++ '#' :: (p.2 ++ segJoin rest)) := by
      simp [segmented, segJoin_cons]
    rw [hshape, findallRM_match h0 hw,
      takeWhile_notNL_append_segJoin rest ht,
      dropWhile_notNL_append_segJoin rest ht]
    have hrest : segJoin rest = segmented ([] : Str) rest := by
      simp [segmented]
    rw [hrest, ih [] (by simp) hg']
    rfl

theorem segPieces_flatten : ∀ (rest : List (Str × Str)) (p : Str × Str) (t0 : Str),
    ((segPieces t0 (p :: rest)).map fun e => e.1 ++ ' ' :: pyStrip e.2).flatten
      = segmented t0 ((p :: rest).map fun q => (q.1, ' ' :: pyStrip q.2)) := by
  intro rest
  induction rest with
  | nil =>
    intro p t0
    simp [segPieces, segmented, segJoin_cons, segJoin, contSeg, List.append_assoc]
  | cons q qs ih =>
    intro p t0
    have hstep : segPieces t0 (p :: q :: qs)
        = (t0 ++ '\n' :: (p.1 ++ ['#']), p.2) :: segPieces [] (q :: qs) := rfl
    rw [hstep]
    simp only [List.map_cons, List.flatten_cons]
    rw [ih q []]
    simp [segmented, segJoin_cons, List.append_assoc]

/-- Core normalization theorem: on a segmented remark with at least one
marker continuation, `ensure_spacing_for_multiline_comment` keeps the first
line and every pre-marker whitespace run verbatim and rewrites each
continuation's remark text to a single space followed by its stripped text. -/
theorem ensure_spacing_segmented {t0 : Str} {segs : List (Str × Str)}
    (h0 : '\n' ∉ t0) (hg : GoodSegs segs) (hne : segs ≠ []) :
    ensure_spacing_for_multiline_comment (segmented t0 segs)
      = segmented t0 (segs.map fun p => (p.1, ' ' :: pyStrip p.2)) := by
  unfold ensure_spacing_for_multiline_comment
  rw [findallRM_segmented segs t0 h0 hg]
  cases segs with
  | nil => exact absurd rfl hne
  | cons p rest =>
    simp only [segPieces, List.isEmpty_cons, if_false, Bool.false_eq_true]
    exact segPieces_flatten rest p t0

/-! ### Totality facts about the normalizer -/

theorem pyIsSpace_space : pyIsSpace ' ' = true := by decide

theorem pyStrip_space_cons (u : Str) : pyStrip (' ' :: u) = pyStrip u := by
  simp [pyStrip, List.dropWhile_cons, pyIsSpace_space]

theorem headIsHash_nil : headIsHash [] = false := rfl

theorem findallGo_allSpace : ∀ (fuel : Nat) (s : Str),
    (∀ c ∈ s, pyIsSpace c = true) → findallGo fuel s = [] := by
  intro fuel
  induction fuel with
  | zero => intro s _; rfl
  | succ n ih =>
    intro s hs
    cases hd : s.dropWhile notNL with
    | nil => exact findallGo_succ_nil n s hd
    | cons x rest =>
      have hsub : ∀ c ∈ rest, pyIsSpace c = true := by
        intro c hc
        refine hs c ((List.dropWhile_sublist notNL).subset ?_)
        rw [hd]
        exact List.mem_cons_of_mem x hc
      rw [findallGo_succ_cons n s x rest hd, dropWhile_all hsub, headIsHash_nil]
      simp only [Bool.false_eq_true, if_false]
      exact ih rest hsub

/-- A whitespace-only remark (this includes the empty remark) normalizes to a
single space. -/
theorem ensure_spacing_allSpace {s : Str} (hs : ∀ c ∈ s, pyIsSpace c = true) :
    ensure_spacing_for_multiline_comment s = [' '] := by
  unfold ensure_spacing_for_multiline_comment
  rw [show findallRM s = [] from findallGo_allSpace _ s hs]
  simp [pyStrip, dropWhile_all hs]

/-- The normalizer never returns the empty string. -/
theorem ensure_spacing_ne_nil (s : Str) :
    ensure_spacing_for_multiline_comment s ≠ [] := by
  unfold ensure_spacing_for_multiline_comment
  cases hf : findallRM s with
  | nil => simp
  | cons e rest => simp

theorem normalizedRemark_eq (t0 : Str) (us : List Str) :
    normalizedRemark t0 us = segmented t0 (us.map fun u => (([] : Str), ' ' :: u)) := by
  unfold normalizedRemark segmented segJoin
  rw [List.map_map]
  congr 2

/-! ### Claims about the comment normalizer -/

/-- C1 (amended): `ensure_spacing_for_multiline_comment` is the identity on
comment strings already in normalized form (marker-free first line, then at
least one continuation segment of the exact shape `"# "` followed by trimmed
newline-free remark text, segments joined by newlines).  The claim's
"equivalently, applying the function twice equals applying it once for every
string" strengthening is refuted by `claim_C1_counterexample`. -/
theorem claim_C1_normalized_identity {t0 : Str} {us : List Str}
    (h0 : '\n' ∉ t0) (hne : us ≠ [])
    (hus : ∀ u ∈ us, '\n' ∉ u ∧ pyStrip u = u) :
    ensure_spacing_for_multiline_comment (normalizedRemark t0 us)
      = normalizedRemark t0 us := by
  have hg : GoodSegs (us.map fun u => (([] : Str), ' ' :: u)) := by
    intro p hp
    simp only [List.mem_map] at hp
    obtain ⟨u, hu, rfl⟩ := hp
    refine ⟨by intro c hc; simp at hc, ?_⟩
    intro hmem
    rcases List.mem_cons.mp hmem with h | h
    · exact absurd h (by decide)
    · exact (hus u hu).1 h
  have hne' : (us.map fun u => (([] : Str), ' ' :: u)) ≠ [] := by
    cases us with
    | nil => exact absurd rfl hne
    | cons a l => simp
  rw [normalizedRemark_eq, ensure_spacing_segmented h0 hg hne', List.map_map]
  congr 1
  apply List.map_congr_left
  intro u hu
  simp [Function.comp, pyStrip_space_cons, (hus u hu).2]

/-- C1 witness: the normalized form of the docstring example is a fixed
point of the normalizer. -/
theorem claim_C1_witness :
    ensure_spacing_for_multiline_comment
        (normalizedRemark "comment 11".data ["comment 12".data, "comment 13".data])
      = normalizedRemark "comment 11".data ["comment 12".data, "comment 13".data] :=
  claim_C1_normalized_identity (by decide) (by decide) (by decide)

/-- C1 counterexample: the normalizer is not idempotent on every string.  On
`"a\n#x\nb  \n#c"` the first pass drops the newline before the unmarked line
`"b  "`, gluing that line (with its trailing spaces) onto the remark of the
first marker; the second pass then strips those spaces, changing the string
again. -/
theorem claim_C1_counterexample :
    ensureSpacingStr (ensureSpacingStr "a\n#x\nb  \n#c")
      ≠ ensureSpacingStr "a\n#x\nb  \n#c" := by decide

/-- C2 (amended): on a comment string whose every line after the first is a
whitespace run followed by a marker and newline-free remark text (N such
continuations), the output has exactly the same N continuations, each
rewritten to its marker followed by exactly one space and the stripped remark
text, joined as before; the first line and each pre-marker whitespace run are
preserved verbatim.  The original claim's "no segment carries leading
whitespace" fails because pre-marker whitespace is preserved, see
`claim_C2_counterexample`. -/
theorem claim_C2_marker_segments {t0 : Str} {segs : List (Str × Str)}
    (h0 : '\n' ∉ t0) (hg : GoodSegs segs) (hne : segs ≠ []) :
    ensure_spacing_for_multiline_comment (segmented t0 segs)
      = segmented t0 (segs.map fun p => (p.1, ' ' :: pyStrip p.2)) ∧
    (segs.map fun p => (p.1, ' ' :: pyStrip p.2)).length = segs.length :=
  ⟨ensure_spacing_segmented h0 hg hne, List.length_map _ _⟩

/-- C2 witness: the docstring example, viewed as two marker continuations
with empty whitespace runs. -/
theorem claim_C2_witness :
    ensure_spacing_for_multiline_comment
        (segmented "comment 11".data
          [(([] : Str), "        comment 12".data), (([] : Str), "comment 13".data)])
      = segmented "comment 11".data
          (([(([] : Str), "        comment 12".data), (([] : Str), "comment 13".data)]).map
            fun p => (p.1, ' ' :: pyStrip p.2)) ∧
    (([(([] : Str), "        comment 12".data), (([] : Str), "comment 13".data)]).map
        fun p => (p.1, ' ' :: pyStrip p.2)).length
      = ([(([] : Str), "        comment 12".data), (([] : Str), "comment 13".data)]).length :=
  claim_C2_marker_segments (by decide) (by decide) (by decide)

/-- C2 counterexample: whitespace between a newline and the marker is kept by
the normalizer, so a segment of the output can carry leading whitespace,
contradicting the claim's "no segment carries leading or trailing
whitespace": the output on `"a\n  #b"` is `"a\n  # b"`. -/
theorem claim_C2_counterexample :
    ((splitNL (ensure_spacing_for_multiline_comment "a\n  #b".data)).all
      fun seg => pyStrip seg == seg) = false := by decide

/-- C3: on the docstring example, the normalizer returns exactly the
documented output (the trailing newline is dropped and each continuation gets
exactly one space after its marker). -/
theorem claim_C3_docstring_example :
    ensureSpacingStr "comment 11\n#        comment 12\n#comment 13\n"
      = "comment 11\n# comment 12\n# comment 13" := by decide

/-- C8: the normalizer is total — it returns a (never empty) string for every
input, the empty and whitespace-only strings included (a whitespace-only
remark normalizes to a single space), and `ensure_space_after_octothorpe`
applied to an absent comment is a no-op. -/
theorem claim_C8_normalizer_total :
    (∀ s : Str, ensure_spacing_for_multiline_comment s ≠ []) ∧
    ensure_spacing_for_multiline_comment [] = [' '] ∧
    (∀ s : Str, ensure_spacing_for_multiline_comment (s.filter pyIsSpace) = [' ']) ∧
    ensure_space_after_octothorpe Option.none = Option.none := by
  refine ⟨ensure_spacing_ne_nil, ?_, ?_, rfl⟩
  · exact ensure_spacing_allSpace (by intro c hc; simp at hc)
  · intro s
    exact ensure_spacing_allSpace (by intro c hc; exact (List.mem_filter.mp hc).2)

/-! ### Claims about the comment tree walker -/

theorem normAllComments_of_not_dictlist {v : PyVal} (h : isDictOrList v = false) :
    normAllComments v = v := by
  cases v <;> simp_all [isDictOrList, normAllComments]

mutual
theorem walk_normalizes_val : ∀ (v : PyVal), allCommented v = true →
    isDictOrList v = true → update_yaml_comments v = (normAllComments v, false)
  | PyVal.commentedMap es ca, h, _ => by
    have hf := walk_normalizes_fields es (by simpa [allCommented] using h)
    simp [update_yaml_comments, normAllComments, hf]
  | PyVal.commentedSeq xs ca, h, _ => by
    have hi := walk_normalizes_items xs (by simpa [allCommented] using h)
    simp [update_yaml_comments, normAllComments, hi]
  | PyVal.plainMap es, h, _ => by simp [allCommented] at h
  | PyVal.plainSeq xs, h, _ => by simp [allCommented] at h
  | PyVal.scalarS s, _, h2 => by simp [isDictOrList] at h2
  | PyVal.scalarN n, _, h2 => by simp [isDictOrList] at h2
  | PyVal.dq s, _, h2 => by simp [isDictOrList] at h2

theorem walk_normalizes_fields : ∀ (es : PyFields), allCommentedFields es = true →
    updateFields es = (normAllCommentsFields es, false)
  | PyFields.nil, _ => rfl
  | PyFields.cons k v rest, h => by
    have h' := h
    simp only [allCommentedFields, Bool.and_eq_true] at h'
    obtain ⟨hv, hrest⟩ := h'
    have hr := walk_normalizes_fields rest hrest
    by_cases hd : isDictOrList v = true
    · have hvv := walk_normalizes_val v hv hd
      simp [updateFields, normAllCommentsFields, hd, hvv, hr]
    · rw [Bool.not_eq_true] at hd
      have hnv := normAllComments_of_not_dictlist hd
      simp [updateFields, normAllCommentsFields, hd, hr, hnv]

theorem walk_normalizes_items : ∀ (xs : PyItems), allCommentedItems xs = true →
    updateItems xs = (normAllCommentsItems xs, false)
  | PyItems.nil, _ => rfl
  | PyItems.cons v rest, h => by
    have h' := h
    simp only [allCommentedItems, Bool.and_eq_true] at h'
    obtain ⟨hv, hrest⟩ := h'
    have hr := walk_normalizes_items rest hrest
    by_cases hd : isDictOrList v = true
    · have hvv := walk_normalizes_val v hv hd
      simp [updateItems, normAllCommentsItems, hd, hvv, hr]
    · rw [Bool.not_eq_true] at hd
      have hnv := normAllComments_of_not_dictlist hd
      simp [updateItems, normAllCommentsItems, hd, hr, hnv]
end

/-- C4: on a document whose mapping/sequence nodes all carry a comment
registry (the shape `ruamel` loading produces), `update_yaml_comments`
terminates without error and normalizes every comment of every registry at
every nesting depth — single token slots and group-nested tokens alike —
matching the order-independent specification `normAllComments`. -/
theorem claim_C4_walk_normalizes {v : PyVal} (h1 : allCommented v = true)
    (h2 : isDictOrList v = true) :
    update_yaml_comments v = (normAllComments v, false) :=
  walk_normalizes_val v h1 h2

/-- C4 witness: the spec's concrete document, whose only comments are
`"#comment 2\n#comment 3\n"` at key `b` and the nested `"#comment 7\n"` at
key `d`, ends the walk holding `"# comment 2\n# comment 3\n"` and
`"# comment 7\n"`. -/
theorem claim_C4_witness :
    update_yaml_comments exampleDoc = (exampleDocNormalized, false) := by
  rw [claim_C4_walk_normalizes (by decide) (by decide)]
  rfl

/-- C5 (amended): `update_yaml_comments` applied to a node without
comment-attachment capability (a bare scalar, a plain `dict` or `list`)
raises `AttributeError` at once, leaving the node unchanged — the absence is
NOT treated like an empty registry inside the walker; the tolerance lives one
level up, in `ensure_yaml_standards`, which catches the error (see the second
part of the C6 theorem). -/
theorem claim_C5_walker_raises {v : PyVal} (h : hasCa v = false) :
    update_yaml_comments v = (v, true) := by
  cases v <;> simp_all [hasCa, update_yaml_comments]

/-- C5 witness: the walker on a bare scalar. -/
theorem claim_C5_witness :
    update_yaml_comments (PyVal.scalarS "x".data) = (PyVal.scalarS "x".data, true) :=
  claim_C5_walker_raises rfl

/-- C5 counterexample: a plain mapping without comment capability makes
`update_yaml_comments` raise (flag `true`), while a node with an empty
registry completes cleanly (flag `false`) — absence is not treated like an
empty registry, and the call does not complete without error. -/
theorem claim_C5_counterexample :
    (update_yaml_comments (PyVal.plainMap PyFields.nil)).2 = true ∧
    (update_yaml_comments (PyVal.commentedMap PyFields.nil [])).2 = false :=
  ⟨rfl, rfl⟩

/-- C6: `ensure_yaml_standards` fails before any comment normalization or
write when looking up `"parsed_sample"` fails (the missing-key `KeyError`
propagates as is), and the only failure class it suppresses is the comment
walk's `AttributeError`: whenever subscription and the quoting pass succeed,
the call returns the document to be dumped no matter whether the walk raised. -/
theorem claim_C6_error_discipline :
    (∀ (po : PyVal) (e : PyErr),
      subscriptStr po "parsed_sample".data = Except.error e →
      ensure_yaml_standards po = Except.error e) ∧
    (∀ (po sample sample2 : PyVal),
      subscriptStr po "parsed_sample".data = Except.ok sample →
      quoteSample sample = Except.ok sample2 →
      ensure_yaml_standards po
        = Except.ok
            (update_yaml_comments (setKey po "parsed_sample".data sample2)).1) := by
  constructor
  · intro po e h
    simp [ensure_yaml_standards, h]
  · intro po sample sample2 h1 h2
    simp [ensure_yaml_standards, h1, h2]

/-- C6 witness: a document without the top-level key `"parsed_sample"` makes
the writer fail with `KeyError` (nothing is normalized or written). -/
theorem claim_C6_witness :
    ensure_yaml_standards
        (PyVal.plainMap (PyFields.cons "other".data (PyVal.scalarN 1) PyFields.nil))
      = Except.error PyErr.keyError :=
  claim_C6_error_discipline.1 _ _ rfl

theorem dqOf_scalarish {v : PyVal} (h : scalarish v = true) :
    dqOf v = Except.ok (dqSpec v) := by
  cases v <;> simp_all [scalarish, dqOf, dqSpec]

theorem dqItems_allScalar : ∀ (xs : PyItems), itemsAllScalar xs = true →
    dqItems xs = Except.ok (mapItems dqSpec xs)
  | PyItems.nil, _ => rfl
  | PyItems.cons v rest, h => by
    simp only [itemsAllScalar, Bool.and_eq_true] at h
    simp [dqItems, mapItems, dqOf_scalarish h.1, dqItems_allScalar rest h.2]

theorem quoteValue_wellShaped {v : PyVal} (h : wellShapedValue v = true) :
    quoteValue v = Except.ok (quoteValueSpec v) := by
  cases v <;>
    simp_all [wellShapedValue, scalarish, quoteValue, quoteValueSpec, dqSpec,
      dqItems_allScalar]

theorem quoteFields_wellShaped : ∀ (es : PyFields), fieldsWellShaped es = true →
    quoteFields es = Except.ok (mapFieldValues quoteValueSpec es)
  | PyFields.nil, _ => rfl
  | PyFields.cons k v rest, h => by
    simp only [fieldsWellShaped, Bool.and_eq_true] at h
    simp [quoteFields, mapFieldValues, quoteValue_wellShaped h.1,
      quoteFields_wellShaped rest h.2]

theorem quoteRecord_wellShaped {v : PyVal} (h : recordWellShaped v = true) :
    quoteRecord v = Except.ok (quoteRecordSpec v) := by
  cases v <;> simp_all [recordWellShaped, quoteRecord, quoteRecordSpec] <;>
    simp [quoteFields_wellShaped _ h]

theorem quoteRecords_wellShaped : ∀ (xs : PyItems), recordsWellShaped xs = true →
    quoteRecords xs = Except.ok (mapItems quoteRecordSpec xs)
  | PyItems.nil, _ => rfl
  | PyItems.cons v rest, h => by
    simp only [recordsWellShaped, Bool.and_eq_true] at h
    simp [quoteRecords, mapItems, quoteRecord_wellShaped h.1,
      quoteRecords_wellShaped rest h.2]

/-- C7: on a sample list of records whose field values are strings, numbers
or lists of such — whether the list was loaded (commented) or freshly built
(plain) — the quoting pass of `ensure_yaml_standards` succeeds and rewrites
every record exactly as specified: scalar values wrapped for forced double
quoting, list values wrapped element-wise, field names, their order and the
record order untouched (`quoteRecordSpec` preserves them by construction). -/
theorem claim_C7_quoting_pass {xs : PyItems} {ca : Registry}
    (h : recordsWellShaped xs = true) :
    quoteSample (PyVal.commentedSeq xs ca)
        = Except.ok (PyVal.commentedSeq (mapItems quoteRecordSpec xs) ca) ∧
    quoteSample (PyVal.plainSeq xs)
        = Except.ok (PyVal.plainSeq (mapItems quoteRecordSpec xs)) := by
  constructor <;> simp [quoteSample, quoteRecords_wellShaped xs h]

/-- C7 witness: the record `{"a": "x", "b": ["1", "2"]}` of the spec. -/
theorem claim_C7_witness :
    quoteSample (PyVal.plainSeq exampleRecords)
      = Except.ok (PyVal.plainSeq (mapItems quoteRecordSpec exampleRecords)) :=
  (@claim_C7_quoting_pass exampleRecords [] rfl).2

/-- C9 (amended): for every value of the global `vendor_os`, every command
and every index, `get_test_files` builds the raw sample path
`tests/{vendor}/{command-with-underscores}/{vendor}_{command}[{index if >1}].raw`
following the spec's convention, but the template path
`ntc_templates/templates/{vendor}_{command}.textfsm` never carries the index
suffix (the claim's "the index-suffix rule applies to both files" is refuted
by `claim_C9_counterexample`); the vendor component is the global, not the
`vender_os` parameter. -/
theorem claim_C9_file_naming (g v c : Str) (i : Int) :
    get_test_files (Option.some g) v c i
      = Except.ok
        (pathJoin ["tests".data, g, replaceSpaceUnderscore c,
            specBaseName g c i ++ ".raw".data],
          pathJoin ["ntc_templates".data, "templates".data,
            specBaseName g c 1 ++ ".textfsm".data]) := by
  have h1 : ¬ ((1 : Int) > 1) := by decide
  unfold get_test_files specBaseName
  by_cases h : i > 1
  · simp [h, h1]
  · simp [h, h1]

/-- C9 counterexample: with index 2 the template file name has no index
suffix, though the claim requires one on both files. -/
theorem claim_C9_counterexample :
    get_test_files (Option.some "cisco_ios".data) "cisco_ios".data
        "show version".data 2
      = Except.ok ("tests/cisco_ios/show_version/cisco_ios_show_version2.raw".data,
          "ntc_templates/templates/cisco_ios_show_version.textfsm".data) ∧
    ("ntc_templates/templates/cisco_ios_show_version.textfsm".data : Str)
      ≠ "ntc_templates/templates/cisco_ios_show_version2.textfsm".data := by
  exact ⟨rfl, by decide⟩

/-- C10: `get_test_files` never depends on its first (vendor) parameter: the
body reads the distinct global name `vendor_os`, so two calls differing only
in the misspelled `vender_os` parameter return identical path pairs. -/
theorem claim_C10_vendor_param_unused (g : Option Str) (v1 v2 c : Str) (i : Int) :
    get_test_files g v1 c i = get_test_files g v2 c i := rfl
